import Mathlib

/-!
Shallow embedding of the held-out proportion sweep from
"Comparing Various Online Solvers" (notebook cell In [4]):

  for name, clf in classifiers:
      rng = np.random.RandomState(42)
      yy = []
      for i in heldout:
          yy_ = []
          for r in range(rounds):
              X_train, X_test, y_train, y_test = \
                  train_test_split(X, y, test_size=i, random_state=rng)
              clf.fit(X_train, y_train)
              y_pred = clf.predict(X_test)
              yy_.append(1 - np.mean(y_pred == y_test))
          yy.append(np.mean(yy_))

The pseudo-random generator is modelled as a (seed, draw-count) pair: each
call to train_test_split consumes one draw, and the permutation the external
shuffling routine produces for a given draw is an abstract function of the
seed and the draw index.  Floating-point means are modelled over ℚ with an
explicit NaN value, since np.mean of an empty array is NaN.
-/

namespace SolverSweep

/-- A numpy RandomState: the seed it was constructed from together with the
number of draws consumed so far.  The n-th value drawn is a deterministic
function of (seed, n). -/
structure Rng where
  seed : ℕ
  count : ℕ
deriving DecidableEq

/-- np.random.RandomState(seed): a fresh generator, no draws consumed. -/
def RandomState (seed : ℕ) : Rng := ⟨seed, 0⟩

/-- A float value that may be NaN (np.mean of an empty array). -/
inductive RVal where
  | nan : RVal
  | val (q : ℚ) : RVal
deriving DecidableEq

/-- Whether a value is NaN. -/
def RVal.isNan : RVal → Bool
  | .nan => true
  | .val _ => false

/-- Underlying rational of a value (0 for NaN; only used under a no-NaN guard). -/
def RVal.toQ : RVal → ℚ
  | .nan => 0
  | .val q => q

/-- 1 - x, propagating NaN. -/
def RVal.oneSub : RVal → RVal
  | .nan => .nan
  | .val q => .val (1 - q)

/-- Numeric value of a boolean, as np.mean sees a boolean array. -/
def boolQ (b : Bool) : ℚ := if b then 1 else 0

/-- np.mean of a list of rationals: NaN when empty, else sum / length. -/
def npMeanQ (l : List ℚ) : RVal :=
  if l.isEmpty then .nan else .val (l.sum / l.length)

/-- np.mean of a list of possibly-NaN floats: NaN when empty or when any
element is NaN, else sum / length. -/
def npMean (l : List RVal) : RVal :=
  if l.isEmpty || l.any RVal.isNan then .nan
  else .val ((l.map RVal.toQ).sum / l.length)

/-- The per-round error rate 1 - np.mean(y_pred == y_test): one minus the
mean of the elementwise equality indicators. -/
def errRate {β : Type} [DecidableEq β] (pred actual : List β) : RVal :=
  RVal.oneSub (npMeanQ ((List.zipWith (fun a b => decide (a = b)) pred actual).map boolQ))

/-- Number of positions at which the prediction matches the true label. -/
def matchCount {β : Type} [DecidableEq β] (pred actual : List β) : ℕ :=
  (List.zipWith (fun a b => decide (a = b)) pred actual).count true

/-- The external shuffling routine: given the generator's seed and the index
of the current draw, a rearrangement of the data.  Abstract collaborator of
the evaluator (np.random permutations). -/
abbrev Shuffle (γ : Type) := ℕ → ℕ → List γ → List γ

/-- sklearn's train_test_split with a float test_size and a shared
RandomState: draw a permutation of the data from the generator (consuming one
draw), put the first ceil(test_size * n) samples in the test set and the rest
in the training set.  Returns ((train, test), advanced generator). -/
def train_test_split {γ : Type} (sh : Shuffle γ) (data : List γ) (testSize : ℚ)
    (rng : Rng) : (List γ × List γ) × Rng :=
  let shuffled := sh rng.seed rng.count data
  let nTest := (⌈testSize * (data.length : ℚ)⌉).toNat
  ((shuffled.drop nTest, shuffled.take nTest), ⟨rng.seed, rng.count + 1⟩)

/-- An opaque classifier capability: internal state of type σ, a fit
operation retraining it on labelled data, and a predict operation; either
may raise (an exception of type ε). -/
structure Clf (α β σ ε : Type) where
  init : σ
  fit : σ → List (α × β) → Except ε σ
  predict : σ → List α → Except ε (List β)

/-- A train/test partition of the data. -/
abbrev Split (α β : Type) := List (α × β) × List (α × β)

/-- The inner `for r in range(rounds)` loop for one proportion p: draw a
split, fit, predict, record the error rate; thread the classifier state and
the generator.  Also returns the list of splits actually drawn (those drawn
before a fit/predict exception are still reported). -/
def runRounds {α β σ ε : Type} [DecidableEq β] (sh : Shuffle (α × β))
    (c : Clf α β σ ε) (data : List (α × β)) (p : ℚ) :
    ℕ → σ → Rng → List (Split α β) × Except ε (List RVal × σ × Rng)
  | 0, st, rng => ([], .ok ([], st, rng))
  | r + 1, st, rng =>
    let sr := train_test_split sh data p rng
    let tr := sr.1.1
    let te := sr.1.2
    let rng1 := sr.2
    match c.fit st tr with
    | .error e => ([(tr, te)], .error e)
    | .ok st1 =>
      match c.predict st1 (te.map Prod.fst) with
      | .error e => ([(tr, te)], .error e)
      | .ok preds =>
        let rest := runRounds sh c data p r st1 rng1
        ((tr, te) :: rest.1,
          rest.2.map fun o => (errRate preds (te.map Prod.snd) :: o.1, o.2.1, o.2.2))

/-- The `for i in heldout` loop: for each proportion run the rounds and
record the mean of the observed error rates. -/
def sweepProps {α β σ ε : Type} [DecidableEq β] (sh : Shuffle (α × β))
    (c : Clf α β σ ε) (data : List (α × β)) (rounds : ℕ) :
    List ℚ → σ → Rng → List (Split α β) × Except ε (List RVal × σ × Rng)
  | [], st, rng => ([], .ok ([], st, rng))
  | p :: ps, st, rng =>
    let rr := runRounds sh c data p rounds st rng
    match rr.2 with
    | .error e => (rr.1, .error e)
    | .ok o =>
      let rest := sweepProps sh c data rounds ps o.2.1 o.2.2
      (rr.1 ++ rest.1,
        rest.2.map fun o2 => (npMean o.1 :: o2.1, o2.2.1, o2.2.2))

/-- One classifier's whole sweep: a fresh RandomState(seed) is created for
it, then all proportions are processed with the shared generator and the
mutable classifier state threaded through.  Returns the splits drawn and
(unless fit/predict raised) the curve. -/
def sweepClassifier {α β σ ε : Type} [DecidableEq β] (sh : Shuffle (α × β))
    (data : List (α × β)) (heldout : List ℚ) (rounds seed : ℕ)
    (c : Clf α β σ ε) : List (Split α β) × Except ε (List RVal) :=
  let r := sweepProps sh c data rounds heldout c.init (RandomState seed)
  (r.1, r.2.map fun o => o.1)

/-- The outer `for name, clf in classifiers` loop: each classifier is swept
with a freshly seeded generator; an exception from any classifier aborts the
whole sweep (the notebook has no exception handling). -/
def sweep {α β σ ε : Type} [DecidableEq β] (sh : Shuffle (α × β))
    (data : List (α × β)) (heldout : List ℚ) (rounds seed : ℕ) :
    List (String × Clf α β σ ε) → Except ε (List (String × List RVal))
  | [] => .ok []
  | nc :: rest =>
    match (sweepClassifier sh data heldout rounds seed nc.2).2 with
    | .error e => .error e
    | .ok yy => (sweep sh data heldout rounds seed rest).map fun l => (nc.1, yy) :: l

/-- The closed-form schedule of splits for one classifier: for each
proportion in order, `rounds` consecutive draws; the n-th split overall is
drawn at generator state (seed, c + n). -/
def splitSchedule {α β : Type} (sh : Shuffle (α × β)) (data : List (α × β))
    (seed : ℕ) (rounds : ℕ) : List ℚ → ℕ → List (Split α β)
  | [], _ => []
  | p :: ps, c =>
    ((List.range rounds).map fun k => (train_test_split sh data p ⟨seed, c + k⟩).1)
      ++ splitSchedule sh data seed rounds ps (c + rounds)

/-! ### Numeric helper lemmas -/

theorem sum_nonneg_le_length (l : List ℚ) (h : ∀ x ∈ l, 0 ≤ x ∧ x ≤ 1) :
    0 ≤ l.sum ∧ l.sum ≤ (l.length : ℚ) := by
  induction l with
  | nil => simp
  | cons a t ih =>
    obtain ⟨ha0, ha1⟩ := h a (by simp)
    obtain ⟨ih0, ih1⟩ := ih fun x hx => h x (by simp [hx])
    refine ⟨by simp only [List.sum_cons]; linarith, ?_⟩
    simp only [List.sum_cons, List.length_cons]
    push_cast
    linarith

theorem errRate_bounds {β : Type} [DecidableEq β] (pred actual : List β)
    (hp : pred ≠ []) (ha : actual ≠ []) :
    ∃ q : ℚ, errRate pred actual = .val q ∧ 0 ≤ q ∧ q ≤ 1 := by
  set bl := (List.zipWith (fun a b => decide (a = b)) pred actual).map boolQ with hbl
  have hlen : bl.length = min pred.length actual.length := by
    simp [hbl]
  have hpos : 0 < bl.length := by
    rw [hlen]
    exact lt_min (List.length_pos.mpr hp) (List.length_pos.mpr ha)
  have hne : bl ≠ [] := List.ne_nil_of_length_pos hpos
  have hx : ∀ x ∈ bl, 0 ≤ x ∧ x ≤ 1 := by
    intro x hx
    rw [hbl] at hx
    obtain ⟨b, _, rfl⟩ := List.mem_map.mp hx
    cases b <;> simp [boolQ]
  obtain ⟨hs0, hs1⟩ := sum_nonneg_le_length bl hx
  have hlq : 0 < (bl.length : ℚ) := by exact_mod_cast hpos
  refine ⟨1 - bl.sum / bl.length, ?_, ?_, ?_⟩
  · simp only [errRate, ← hbl, npMeanQ, List.isEmpty_eq_true, hne, if_false, RVal.oneSub]
  · have : bl.sum / bl.length ≤ 1 := (div_le_one hlq).mpr hs1
    linarith
  · have : 0 ≤ bl.sum / bl.length := div_nonneg hs0 (le_of_lt hlq)
    linarith

theorem npMean_bounds (l : List RVal) (hne : l ≠ [])
    (h : ∀ v ∈ l, ∃ q : ℚ, v = .val q ∧ 0 ≤ q ∧ q ≤ 1) :
    ∃ q : ℚ, npMean l = .val q ∧ 0 ≤ q ∧ q ≤ 1 := by
  have hnan : l.any RVal.isNan = false := by
    rw [List.any_eq_false]
    intro v hv
    obtain ⟨q, rfl, _⟩ := h v hv
    simp [RVal.isNan]
  have hq : ∀ x ∈ l.map RVal.toQ, 0 ≤ x ∧ x ≤ 1 := by
    intro x hx
    obtain ⟨v, hv, rfl⟩ := List.mem_map.mp hx
    obtain ⟨q, hvq, h0, h1⟩ := h v hv
    subst hvq
    simpa [RVal.toQ] using ⟨h0, h1⟩
  obtain ⟨hs0, hs1⟩ := sum_nonneg_le_length _ hq
  have hpos : 0 < l.length := List.length_pos.mpr hne
  have hlq : 0 < (l.length : ℚ) := by exact_mod_cast hpos
  refine ⟨(l.map RVal.toQ).sum / l.length, ?_, ?_, ?_⟩
  · simp only [npMean, hnan, Bool.or_false, List.isEmpty_eq_true]
    simp [hne]
  · exact div_nonneg hs0 (le_of_lt hlq)
  · rw [div_le_one hlq]
    simpa using hs1

theorem npMean_singleton (x : RVal) : npMean [x] = x := by
  cases x <;> simp [npMean, RVal.isNan, RVal.toQ]

theorem sum_map_boolQ (l : List Bool) : (l.map boolQ).sum = (l.count true : ℚ) := by
  induction l with
  | nil => simp
  | cons a t ih =>
    cases a with
    | false => simp [boolQ, ih, List.count_cons]
    | true => simp [boolQ, ih, List.count_cons]; ring

theorem test_nonempty {γ : Type} (sh : Shuffle γ) (data : List γ) (p : ℚ) (rng : Rng)
    (Hsh : ∀ s k l, (sh s k l).length = l.length)
    (Hd : data ≠ []) (Hp : 0 < p) :
    (train_test_split sh data p rng).1.2 ≠ [] := by
  have hdl : 0 < data.length := List.length_pos.mpr Hd
  have hql : (0 : ℚ) < (data.length : ℚ) := by exact_mod_cast hdl
  have hceil : 0 < ⌈p * (data.length : ℚ)⌉ := Int.ceil_pos.mpr (by positivity)
  have hTest : 0 < (⌈p * (data.length : ℚ)⌉).toNat := by omega
  apply List.ne_nil_of_length_pos
  simp only [train_test_split, List.length_take, Hsh]
  omega

/-! ### Structural lemmas about the sweep loops -/

theorem train_test_split_rng {γ : Type} (sh : Shuffle γ) (data : List γ) (p : ℚ)
    (rng : Rng) : (train_test_split sh data p rng).2 = ⟨rng.seed, rng.count + 1⟩ := rfl

theorem runRounds_ok {α β σ ε : Type} [DecidableEq β] (sh : Shuffle (α × β))
    (c : Clf α β σ ε) (data : List (α × β)) (p : ℚ) (r : ℕ) (st : σ) (rng : Rng)
    (o : List RVal × σ × Rng)
    (h : (runRounds sh c data p r st rng).2 = .ok o) :
    o.1.length = r ∧ o.2.2 = ⟨rng.seed, rng.count + r⟩ ∧
    (runRounds sh c data p r st rng).1 =
      (List.range r).map (fun k => (train_test_split sh data p ⟨rng.seed, rng.count + k⟩).1) ∧
    ∀ v ∈ o.1, ∃ pr ac : List β, v = errRate pr ac := by
  induction r generalizing st rng o with
  | zero =>
    simp only [runRounds, Except.ok.injEq] at h
    subst h
    refine ⟨rfl, ?_, by simp [runRounds], by simp⟩
    cases rng
    simp
  | succ r ih =>
    simp only [runRounds] at h ⊢
    cases hf : c.fit st (train_test_split sh data p rng).1.1 with
    | error e => simp [hf] at h
    | ok st1 =>
      simp only [hf] at h ⊢
      cases hp2 : c.predict st1 ((train_test_split sh data p rng).1.2.map Prod.fst) with
      | error e => simp [hp2] at h
      | ok preds =>
        simp only [hp2] at h ⊢
        cases hrec : (runRounds sh c data p r st1 (train_test_split sh data p rng).2).2 with
        | error e => simp [hrec, Except.map] at h
        | ok o1 =>
          simp only [hrec, Except.map, Except.ok.injEq] at h
          subst h
          obtain ⟨ih1, ih2, ih3, ih4⟩ := ih st1 _ o1 hrec
          rw [train_test_split_rng] at ih2 ih3
          refine ⟨by simp [ih1], ?_, ?_, ?_⟩
          · rw [ih2]
            have : rng.count + 1 + r = rng.count + (r + 1) := by omega
            simp [this]
          · have htail : (runRounds sh c data p r st1 (train_test_split sh data p rng).2).1 =
                List.map ((fun k => (train_test_split sh data p ⟨rng.seed, rng.count + k⟩).1)
                  ∘ Nat.succ) (List.range r) := by
              rw [train_test_split_rng, ih3]
              apply List.map_congr_left
              intro k _
              have hk : rng.count + 1 + k = rng.count + (k + 1) := by omega
              simp [Function.comp, hk, Nat.succ_eq_add_one]
            simp only [List.range_succ_eq_map, List.map_cons, List.map_map, htail]
            cases rng
            simp
          · intro v hv
            simp only [List.mem_cons] at hv
            rcases hv with hv | hv
            · exact ⟨preds, _, hv⟩
            · exact ih4 v hv

theorem runRounds_ok_bounds {α β σ ε : Type} [DecidableEq β] (sh : Shuffle (α × β))
    (c : Clf α β σ ε) (data : List (α × β)) (p : ℚ)
    (Hsh : ∀ s k l, (sh s k l).length = l.length)
    (Hpred : ∀ st xs ys, c.predict st xs = .ok ys → ys.length = xs.length)
    (Hd : data ≠ []) (Hp : 0 < p) (r : ℕ) (st : σ) (rng : Rng)
    (o : List RVal × σ × Rng)
    (h : (runRounds sh c data p r st rng).2 = .ok o) :
    ∀ v ∈ o.1, ∃ q : ℚ, v = RVal.val q ∧ 0 ≤ q ∧ q ≤ 1 := by
  induction r generalizing st rng o with
  | zero =>
    simp only [runRounds, Except.ok.injEq] at h
    subst h
    simp
  | succ r ih =>
    simp only [runRounds] at h
    cases hf : c.fit st (train_test_split sh data p rng).1.1 with
    | error e => simp [hf] at h
    | ok st1 =>
      simp only [hf] at h
      cases hp2 : c.predict st1 ((train_test_split sh data p rng).1.2.map Prod.fst) with
      | error e => simp [hp2] at h
      | ok preds =>
        simp only [hp2] at h
        cases hrec : (runRounds sh c data p r st1 (train_test_split sh data p rng).2).2 with
        | error e => simp [hrec, Except.map] at h
        | ok o1 =>
          simp only [hrec, Except.map, Except.ok.injEq] at h
          subst h
          intro v hv
          simp only [List.mem_cons] at hv
          rcases hv with rfl | hv
          · have hte : (train_test_split sh data p rng).1.2 ≠ [] :=
              test_nonempty sh data p rng Hsh Hd Hp
            have hpl : preds.length = (train_test_split sh data p rng).1.2.length := by
              simpa using Hpred st1 _ _ hp2
            have hpne : preds ≠ [] := by
              intro hcon
              apply hte
              rw [← List.length_eq_zero, ← hpl, hcon, List.length_nil]
            have hacne : (train_test_split sh data p rng).1.2.map Prod.snd ≠ [] := by
              intro hcon
              exact hte (List.map_eq_nil_iff.mp hcon)
            exact errRate_bounds preds _ hpne hacne
          · exact ih st1 _ o1 hrec v hv

theorem sweepProps_ok {α β σ ε : Type} [DecidableEq β] (sh : Shuffle (α × β))
    (c : Clf α β σ ε) (data : List (α × β)) (rounds : ℕ) (ps : List ℚ) (st : σ)
    (rng : Rng) (o : List RVal × σ × Rng)
    (h : (sweepProps sh c data rounds ps st rng).2 = .ok o) :
    o.1.length = ps.length ∧
    ∀ v ∈ o.1, ∃ obs : List RVal, obs.length = rounds ∧ v = npMean obs ∧
      ∀ x ∈ obs, ∃ pr ac : List β, x = errRate pr ac := by
  induction ps generalizing st rng o with
  | nil =>
    simp only [sweepProps, Except.ok.injEq] at h
    subst h
    simp
  | cons p ps ih =>
    simp only [sweepProps] at h
    cases hr : (runRounds sh c data p rounds st rng).2 with
    | error e => simp [hr] at h
    | ok o1 =>
      simp only [hr] at h
      cases hrest : (sweepProps sh c data rounds ps o1.2.1 o1.2.2).2 with
      | error e => simp [hrest, Except.map] at h
      | ok o2 =>
        simp only [hrest, Except.map, Except.ok.injEq] at h
        subst h
        obtain ⟨hlen, hmem⟩ := ih o1.2.1 o1.2.2 o2 hrest
        obtain ⟨hrl, _, _, hrv⟩ := runRounds_ok sh c data p rounds st rng o1 hr
        refine ⟨by simp [hlen], ?_⟩
        intro v hv
        simp only [List.mem_cons] at hv
        rcases hv with rfl | hv
        · exact ⟨o1.1, hrl, rfl, hrv⟩
        · exact hmem v hv

theorem sweepProps_ok_bounds {α β σ ε : Type} [DecidableEq β] (sh : Shuffle (α × β))
    (c : Clf α β σ ε) (data : List (α × β)) (rounds : ℕ)
    (Hsh : ∀ s k l, (sh s k l).length = l.length)
    (Hpred : ∀ st xs ys, c.predict st xs = .ok ys → ys.length = xs.length)
    (Hd : data ≠ []) (Hr : 1 ≤ rounds) (ps : List ℚ) (st : σ) (rng : Rng)
    (o : List RVal × σ × Rng) (Hps : ∀ p ∈ ps, 0 < p)
    (h : (sweepProps sh c data rounds ps st rng).2 = .ok o) :
    ∀ v ∈ o.1, ∃ q : ℚ, v = RVal.val q ∧ 0 ≤ q ∧ q ≤ 1 := by
  induction ps generalizing st rng o with
  | nil =>
    simp only [sweepProps, Except.ok.injEq] at h
    subst h
    simp
  | cons p ps ih =>
    simp only [sweepProps] at h
    cases hr : (runRounds sh c data p rounds st rng).2 with
    | error e => simp [hr] at h
    | ok o1 =>
      simp only [hr] at h
      cases hrest : (sweepProps sh c data rounds ps o1.2.1 o1.2.2).2 with
      | error e => simp [hrest, Except.map] at h
      | ok o2 =>
        simp only [hrest, Except.map, Except.ok.injEq] at h
        subst h
        intro v hv
        simp only [List.mem_cons] at hv
        rcases hv with rfl | hv
        · obtain ⟨hrl, _, _, _⟩ := runRounds_ok sh c data p rounds st rng o1 hr
          have hone : o1.1 ≠ [] := by
            apply List.ne_nil_of_length_pos
            omega
          exact npMean_bounds o1.1 hone
            (runRounds_ok_bounds sh c data p Hsh Hpred Hd (Hps p (by simp))
              rounds st rng o1 hr)
        · exact ih o1.2.1 o1.2.2 o2 (fun q hq => Hps q (List.mem_cons_of_mem p hq)) hrest v hv

theorem sweepProps_ok_trace {α β σ ε : Type} [DecidableEq β] (sh : Shuffle (α × β))
    (c : Clf α β σ ε) (data : List (α × β)) (rounds : ℕ) (ps : List ℚ) (st : σ)
    (rng : Rng) (o : List RVal × σ × Rng)
    (h : (sweepProps sh c data rounds ps st rng).2 = .ok o) :
    (sweepProps sh c data rounds ps st rng).1
      = splitSchedule sh data rng.seed rounds ps rng.count ∧
    o.2.2 = ⟨rng.seed, rng.count + ps.length * rounds⟩ := by
  induction ps generalizing st rng o with
  | nil =>
    simp only [sweepProps, Except.ok.injEq] at h
    subst h
    refine ⟨by simp [sweepProps, splitSchedule], ?_⟩
    cases rng
    simp
  | cons p ps ih =>
    simp only [sweepProps] at h ⊢
    cases hr : (runRounds sh c data p rounds st rng).2 with
    | error e => simp [hr] at h
    | ok o1 =>
      simp only [hr] at h ⊢
      cases hrest : (sweepProps sh c data rounds ps o1.2.1 o1.2.2).2 with
      | error e => simp [hrest, Except.map] at h
      | ok o2 =>
        simp only [hrest, Except.map, Except.ok.injEq] at h
        subst h
        obtain ⟨_, hrng1, htr1, _⟩ := runRounds_ok sh c data p rounds st rng o1 hr
        obtain ⟨htr2, hrng2⟩ := ih o1.2.1 o1.2.2 o2 hrest
        rw [hrng1] at htr2 hrng2
        constructor
        · rw [splitSchedule, htr1, hrng1, htr2]
        · rw [hrng2]
          have : rng.count + rounds + ps.length * rounds
              = rng.count + (ps.length + 1) * rounds := by ring
          simp [this]

theorem splitSchedule_length {α β : Type} (sh : Shuffle (α × β)) (data : List (α × β))
    (seed rounds : ℕ) (ps : List ℚ) (c : ℕ) :
    (splitSchedule sh data seed rounds ps c).length = ps.length * rounds := by
  induction ps generalizing c with
  | nil => simp [splitSchedule]
  | cons p t ih =>
    simp only [splitSchedule, List.length_append, List.length_map, List.length_range, ih,
      List.length_cons]
    ring

theorem sweepClassifier_trace {α β σ ε : Type} [DecidableEq β] (sh : Shuffle (α × β))
    (data : List (α × β)) (heldout : List ℚ) (rounds seed : ℕ) (c : Clf α β σ ε) :
    (sweepClassifier sh data heldout rounds seed c).1
      = (sweepProps sh c data rounds heldout c.init (RandomState seed)).1 := rfl

theorem sweepClassifier_ok {α β σ ε : Type} [DecidableEq β] (sh : Shuffle (α × β))
    (data : List (α × β)) (heldout : List ℚ) (rounds seed : ℕ) (c : Clf α β σ ε)
    (yy : List RVal) (h : (sweepClassifier sh data heldout rounds seed c).2 = .ok yy) :
    ∃ o : List RVal × σ × Rng,
      (sweepProps sh c data rounds heldout c.init (RandomState seed)).2 = .ok o
        ∧ o.1 = yy := by
  simp only [sweepClassifier] at h
  cases hsp : (sweepProps sh c data rounds heldout c.init (RandomState seed)).2 with
  | error e => simp [hsp, Except.map] at h
  | ok o =>
    simp only [hsp, Except.map, Except.ok.injEq] at h
    exact ⟨o, rfl, h⟩

theorem sweep_ok_mem {α β σ ε : Type} [DecidableEq β] (sh : Shuffle (α × β))
    (data : List (α × β)) (heldout : List ℚ) (rounds seed : ℕ)
    (cs : List (String × Clf α β σ ε)) (res : List (String × List RVal))
    (h : sweep sh data heldout rounds seed cs = .ok res) :
    ∀ pr ∈ res, ∃ nc ∈ cs, pr.1 = nc.1 ∧
      (sweepClassifier sh data heldout rounds seed nc.2).2 = .ok pr.2 := by
  induction cs generalizing res with
  | nil =>
    simp only [sweep, Except.ok.injEq] at h
    subst h
    simp
  | cons nc rest ih =>
    simp only [sweep] at h
    cases hc : (sweepClassifier sh data heldout rounds seed nc.2).2 with
    | error e => simp [hc] at h
    | ok yy =>
      simp only [hc] at h
      cases hs : sweep sh data heldout rounds seed rest with
      | error e => simp [hs, Except.map] at h
      | ok res2 =>
        simp only [hs, Except.map, Except.ok.injEq] at h
        subst h
        intro pr hpr
        simp only [List.mem_cons] at hpr
        rcases hpr with rfl | hpr
        · exact ⟨nc, by simp, rfl, hc⟩
        · obtain ⟨nc2, hmem, h1, h2⟩ := ih res2 hs pr hpr
          exact ⟨nc2, by simp [hmem], h1, h2⟩

theorem sweep_ok_get {α β σ ε : Type} [DecidableEq β] (sh : Shuffle (α × β))
    (data : List (α × β)) (heldout : List ℚ) (rounds seed : ℕ)
    (cs : List (String × Clf α β σ ε)) (res : List (String × List RVal))
    (h : sweep sh data heldout rounds seed cs = .ok res) :
    res.length = cs.length ∧
    ∀ (i : ℕ) (h1 : i < cs.length) (h2 : i < res.length),
      (res.get ⟨i, h2⟩).1 = (cs.get ⟨i, h1⟩).1 ∧
      (sweepClassifier sh data heldout rounds seed (cs.get ⟨i, h1⟩).2).2
        = .ok (res.get ⟨i, h2⟩).2 := by
  induction cs generalizing res with
  | nil =>
    simp only [sweep, Except.ok.injEq] at h
    subst h
    exact ⟨rfl, fun i h1 h2 => absurd h1 (Nat.not_lt_zero i)⟩
  | cons nc rest ih =>
    simp only [sweep] at h
    cases hc : (sweepClassifier sh data heldout rounds seed nc.2).2 with
    | error e => simp [hc] at h
    | ok yy =>
      simp only [hc] at h
      cases hs : sweep sh data heldout rounds seed rest with
      | error e => simp [hs, Except.map] at h
      | ok res2 =>
        simp only [hs, Except.map, Except.ok.injEq] at h
        subst h
        obtain ⟨hlen, hget⟩ := ih res2 hs
        refine ⟨by simp [hlen], ?_⟩
        intro i h1 h2
        cases i with
        | zero => exact ⟨rfl, hc⟩
        | succ j =>
          exact hget j (by simpa using h1) (by simpa [hlen] using h2)

/-! ### Totality: the evaluator itself never raises -/

theorem runRounds_total {α β σ ε : Type} [DecidableEq β] (sh : Shuffle (α × β))
    (c : Clf α β σ ε) (data : List (α × β)) (p : ℚ)
    (Hfit : ∀ st t, ∃ st2, c.fit st t = .ok st2)
    (Hpr : ∀ st xs, ∃ ys, c.predict st xs = .ok ys) (r : ℕ) (st : σ) (rng : Rng) :
    ∃ o, (runRounds sh c data p r st rng).2 = .ok o := by
  induction r generalizing st rng with
  | zero => exact ⟨([], st, rng), rfl⟩
  | succ r ih =>
    obtain ⟨st1, hf⟩ := Hfit st (train_test_split sh data p rng).1.1
    obtain ⟨preds, hp2⟩ := Hpr st1 ((train_test_split sh data p rng).1.2.map Prod.fst)
    obtain ⟨o1, hrec⟩ := ih st1 (train_test_split sh data p rng).2
    refine ⟨(errRate preds ((train_test_split sh data p rng).1.2.map Prod.snd) :: o1.1,
      o1.2.1, o1.2.2), ?_⟩
    simp only [runRounds, hf, hp2, hrec, Except.map]

theorem sweepProps_total {α β σ ε : Type} [DecidableEq β] (sh : Shuffle (α × β))
    (c : Clf α β σ ε) (data : List (α × β)) (rounds : ℕ)
    (Hfit : ∀ st t, ∃ st2, c.fit st t = .ok st2)
    (Hpr : ∀ st xs, ∃ ys, c.predict st xs = .ok ys) (ps : List ℚ) (st : σ) (rng : Rng) :
    ∃ o, (sweepProps sh c data rounds ps st rng).2 = .ok o := by
  induction ps generalizing st rng with
  | nil => exact ⟨([], st, rng), rfl⟩
  | cons p ps ih =>
    obtain ⟨o1, hr⟩ := runRounds_total sh c data p Hfit Hpr rounds st rng
    obtain ⟨o2, hrest⟩ := ih o1.2.1 o1.2.2
    refine ⟨(npMean o1.1 :: o2.1, o2.2.1, o2.2.2), ?_⟩
    simp only [sweepProps, hr, hrest, Except.map]

theorem sweep_total {α β σ ε : Type} [DecidableEq β] (sh : Shuffle (α × β))
    (data : List (α × β)) (heldout : List ℚ) (rounds seed : ℕ)
    (cs : List (String × Clf α β σ ε))
    (H : ∀ nc ∈ cs, (∀ st t, ∃ st2, (nc.2).fit st t = .ok st2) ∧
      (∀ st xs, ∃ ys, (nc.2).predict st xs = .ok ys)) :
    ∃ res, sweep sh data heldout rounds seed cs = .ok res := by
  induction cs with
  | nil => exact ⟨[], rfl⟩
  | cons nc rest ih =>
    obtain ⟨Hfit, Hpr⟩ := H nc (by simp)
    obtain ⟨o, hsp⟩ := sweepProps_total sh nc.2 data rounds Hfit Hpr heldout
      nc.2.init (RandomState seed)
    obtain ⟨res2, hs⟩ := ih fun x hx => H x (List.mem_cons_of_mem nc hx)
    refine ⟨(nc.1, o.1) :: res2, ?_⟩
    simp only [sweep, sweepClassifier, hsp, hs, Except.map]

/-! ### A classifier whose fit raises at its (k+1)-th training call -/

/-- A classifier that counts its fit calls in its state and raises `e` on the
call made with counter value `k` (i.e. its (k+1)-th training call). -/
def failingClf {α β ε : Type} (k : ℕ) (e : ε) : Clf α β ℕ ε where
  init := 0
  fit := fun st _ => if st = k then .error e else .ok (st + 1)
  predict := fun _ _ => .ok []

theorem failingClf_runRounds_ok {α β ε : Type} [DecidableEq β] (sh : Shuffle (α × β))
    (data : List (α × β)) (p : ℚ) (k : ℕ) (e : ε) (r : ℕ) (st : ℕ) (rng : Rng)
    (hlt : st + r ≤ k) :
    ∃ ys, (runRounds sh (failingClf k e) data p r st rng).2
        = .ok (ys, st + r, ⟨rng.seed, rng.count + r⟩) ∧
      (runRounds sh (failingClf k e) data p r st rng).1.length = r := by
  induction r generalizing st rng with
  | zero =>
    refine ⟨[], ?_, rfl⟩
    have : st + 0 = st := by omega
    rw [this]
    cases rng
    rfl
  | succ r ih =>
    have hne : st ≠ k := by omega
    obtain ⟨ys, hok, hlen⟩ := ih (st + 1) (train_test_split sh data p rng).2 (by omega)
    rw [train_test_split_rng] at hok
    have hfit : (failingClf (α := α) (β := β) k e).fit st
        (train_test_split sh data p rng).1.1 = .ok (st + 1) := by
      simp [failingClf, hne]
    have hpredict : (failingClf (α := α) (β := β) k e).predict (st + 1)
        ((train_test_split sh data p rng).1.2.map Prod.fst) = .ok ([] : List β) := rfl
    refine ⟨errRate ([] : List β)
      ((train_test_split sh data p rng).1.2.map Prod.snd) :: ys, ?_, ?_⟩
    · simp only [runRounds, hfit, hpredict, train_test_split_rng, hok, Except.map]
      have h1 : st + 1 + r = st + (r + 1) := by omega
      have h2 : rng.count + 1 + r = rng.count + (r + 1) := by omega
      simp [h1, h2]
    · simp only [runRounds, hfit, hpredict, train_test_split_rng, hok, Except.map,
        List.length_cons]
      rw [← train_test_split_rng sh data p rng, hlen]

theorem failingClf_runRounds_error {α β ε : Type} [DecidableEq β] (sh : Shuffle (α × β))
    (data : List (α × β)) (p : ℚ) (k : ℕ) (e : ε) (r : ℕ) (st : ℕ) (rng : Rng)
    (hle : st ≤ k) (hlt : k < st + r) :
    (runRounds sh (failingClf k e) data p r st rng).2 = .error e ∧
    (runRounds sh (failingClf k e) data p r st rng).1.length = k - st + 1 := by
  induction r generalizing st rng with
  | zero => omega
  | succ r ih =>
    by_cases hst : st = k
    · subst hst
      have hfit : (failingClf (α := α) (β := β) st e).fit st
          (train_test_split sh data p rng).1.1 = .error e := by
        simp [failingClf]
      constructor
      · simp only [runRounds, hfit]
      · simp only [runRounds, hfit, List.length_cons, List.length_nil]
        omega
    · have hne : st ≠ k := hst
      obtain ⟨herr, hlen⟩ := ih (st + 1) (train_test_split sh data p rng).2
        (by omega) (by omega)
      have hfit : (failingClf (α := α) (β := β) k e).fit st
          (train_test_split sh data p rng).1.1 = .ok (st + 1) := by
        simp [failingClf, hne]
      have hpredict : (failingClf (α := α) (β := β) k e).predict (st + 1)
          ((train_test_split sh data p rng).1.2.map Prod.fst) = .ok ([] : List β) := rfl
      constructor
      · simp only [runRounds, hfit, hpredict, herr, Except.map]
      · simp only [runRounds, hfit, hpredict, herr, Except.map, List.length_cons]
        omega

theorem failingClf_sweepProps_error {α β ε : Type} [DecidableEq β] (sh : Shuffle (α × β))
    (data : List (α × β)) (rounds : ℕ) (k : ℕ) (e : ε) (ps : List ℚ) (st : ℕ)
    (rng : Rng) (hle : st ≤ k) (hlt : k < st + ps.length * rounds) :
    (sweepProps sh (failingClf k e) data rounds ps st rng).2 = .error e ∧
    (sweepProps sh (failingClf k e) data rounds ps st rng).1.length = k - st + 1 := by
  induction ps generalizing st rng with
  | nil => simp at hlt; omega
  | cons p ps ih =>
    by_cases hin : k < st + rounds
    · obtain ⟨herr, hlen⟩ :=
        failingClf_runRounds_error sh data p k e rounds st rng hle hin
      constructor
      · simp only [sweepProps, herr]
      · simp only [sweepProps, herr]
        exact hlen
    · obtain ⟨ys, hok, hlen⟩ :=
        failingClf_runRounds_ok sh data p k e rounds st rng (by omega)
      have hlt2 : k < (st + rounds) + ps.length * rounds := by
        have : (p :: ps).length * rounds = ps.length * rounds + rounds := by
          simp [List.length_cons]
          ring
        omega
      obtain ⟨herr, hlen2⟩ := ih (st + rounds) ⟨rng.seed, rng.count + rounds⟩
        (by omega) hlt2
      constructor
      · simp only [sweepProps, hok, herr, Except.map]
      · simp only [sweepProps, hok, herr, Except.map, List.length_append]
        omega

/-! ### Auxiliary lemmas for empty configuration -/

theorem sweepProps_rounds_zero {α β σ ε : Type} [DecidableEq β] (sh : Shuffle (α × β))
    (c : Clf α β σ ε) (data : List (α × β)) (ps : List ℚ) (st : σ) (rng : Rng) :
    sweepProps sh c data 0 ps st rng = ([], .ok (ps.map fun _ => RVal.nan, st, rng)) := by
  induction ps generalizing st rng with
  | nil => rfl
  | cons p ps ih =>
    simp only [sweepProps, runRounds, ih, Except.map, List.map_cons]
    simp [npMean]

theorem sweep_heldout_nil {α β σ ε : Type} [DecidableEq β] (sh : Shuffle (α × β))
    (data : List (α × β)) (rounds seed : ℕ) (cs : List (String × Clf α β σ ε)) :
    sweep sh data ([] : List ℚ) rounds seed cs = .ok (cs.map fun nc => (nc.1, [])) := by
  induction cs with
  | nil => rfl
  | cons nc rest ih =>
    simp only [sweep, sweepClassifier, sweepProps, Except.map, ih, List.map_cons]

theorem sweep_rounds_zero {α β σ ε : Type} [DecidableEq β] (sh : Shuffle (α × β))
    (data : List (α × β)) (heldout : List ℚ) (seed : ℕ)
    (cs : List (String × Clf α β σ ε)) :
    sweep sh data heldout 0 seed cs
      = .ok (cs.map fun nc => (nc.1, heldout.map fun _ => RVal.nan)) := by
  induction cs with
  | nil => rfl
  | cons nc rest ih =>
    simp only [sweep, sweepClassifier, sweepProps_rounds_zero, Except.map, ih, List.map_cons]

/-! ### Concrete instances used by witnesses and counterexamples -/

theorem int_toNat_lit (n : ℕ) : (no_index (OfNat.ofNat n) : ℤ).toNat = OfNat.ofNat n := rfl

/-- A shuffle that leaves the data in place. -/
def idSh : Shuffle (ℕ × ℕ) := fun _ _ l => l

/-- A shuffle that depends on the index of the current draw (identity on draw
zero, reversal on later ones), so that different draws produce different
splits. -/
def flipSh : Shuffle (ℕ × ℕ) := fun _ k l => if k = 0 then l else l.reverse

/-- A stateless classifier that always predicts label 0 and never raises. -/
def constClf : Clf ℕ ℕ Unit String where
  init := ()
  fit := fun _ _ => .ok ()
  predict := fun _ xs => .ok (xs.map fun _ => 0)

/-- A two-sample dataset. -/
def wData : List (ℕ × ℕ) := [(0, 1), (1, 0)]

/-- A four-sample dataset with distinct labels. -/
def data4 : List (ℕ × ℕ) := [(0, 0), (1, 1), (2, 2), (3, 3)]

/-- A ten-sample dataset with two balanced classes. -/
def data10 : List (ℕ × ℕ) :=
  [(0, 0), (1, 0), (2, 0), (3, 0), (4, 0), (5, 1), (6, 1), (7, 1), (8, 1), (9, 1)]

/-! ### The claims -/

/-- Claim C1: for every dataset, sweep configuration and classifier sequence on
which the sweep completes, each classifier's resulting curve contains exactly
one mean error rate per configured held-out proportion (its length equals the
proportion sequence's length, positionally aligned in the given order), and
every curve value is a rational in the closed interval [0, 1]. -/
theorem claim_C1_curve_shape {α β σ ε : Type} [DecidableEq β] (sh : Shuffle (α × β))
    (data : List (α × β)) (heldout : List ℚ) (rounds seed : ℕ)
    (cs : List (String × Clf α β σ ε)) (res : List (String × List RVal))
    (pr : String × List RVal)
    (Hok : sweep sh data heldout rounds seed cs = .ok res)
    (Hp : ∀ p ∈ heldout, 0 < p ∧ p < 1)
    (Hr : 1 ≤ rounds) (Hd : data ≠ [])
    (Hsh : ∀ s k l, (sh s k l).length = l.length)
    (Hpred : ∀ nc ∈ cs, ∀ st xs ys, (nc.2).predict st xs = .ok ys → ys.length = xs.length)
    (hpr : pr ∈ res) :
    pr.2.length = heldout.length ∧
    ∀ v ∈ pr.2, ∃ q : ℚ, v = RVal.val q ∧ 0 ≤ q ∧ q ≤ 1 := by
  obtain ⟨nc, hnc, _, hcl⟩ := sweep_ok_mem sh data heldout rounds seed cs res Hok pr hpr
  obtain ⟨o, hsp, ho⟩ := sweepClassifier_ok sh data heldout rounds seed nc.2 pr.2 hcl
  constructor
  · rw [← ho]
    exact (sweepProps_ok sh nc.2 data rounds heldout nc.2.init (RandomState seed) o hsp).1
  · rw [← ho]
    exact sweepProps_ok_bounds sh nc.2 data rounds Hsh (Hpred nc hnc) Hd Hr heldout
      nc.2.init (RandomState seed) o (fun p hp => (Hp p hp).1) hsp

theorem claim_C1_witness :
    ("A", [RVal.val 1]).2.length = [(1 : ℚ)/2].length ∧
    ∀ v ∈ ("A", [RVal.val 1]).2, ∃ q : ℚ, v = RVal.val q ∧ 0 ≤ q ∧ q ≤ 1 :=
  claim_C1_curve_shape idSh wData [1/2] 1 42 [("A", constClf)] [("A", [RVal.val 1])]
    ("A", [RVal.val 1])
    (by simp [sweep, sweepClassifier, sweepProps, runRounds, train_test_split, idSh,
      wData, constClf, RandomState, errRate, npMeanQ, npMean, boolQ, RVal.oneSub,
      RVal.isNan, RVal.toQ, Except.map])
    (by norm_num) le_rfl (by simp [wData]) (fun s k l => rfl)
    (by
      intro nc hnc st xs ys h
      simp only [List.mem_singleton] at hnc
      subst hnc
      simp only [constClf, Except.ok.injEq] at h
      subst h
      simp)
    (by simp)

/-- Claim C2: every curve value is the arithmetic mean of exactly `rounds`
per-round error-rate observations; in particular with rounds = 1 it equals the
single observed error rate. -/
theorem claim_C2_mean_of_rounds {α β σ ε : Type} [DecidableEq β] (sh : Shuffle (α × β))
    (data : List (α × β)) (heldout : List ℚ) (rounds seed : ℕ)
    (cs : List (String × Clf α β σ ε)) (res : List (String × List RVal))
    (pr : String × List RVal) (v : RVal)
    (Hok : sweep sh data heldout rounds seed cs = .ok res)
    (hpr : pr ∈ res) (hv : v ∈ pr.2) :
    ∃ obs : List RVal, obs.length = rounds ∧ v = npMean obs ∧
      (∀ x ∈ obs, ∃ prd ac : List β, x = errRate prd ac) ∧
      (rounds = 1 → ∃ x, obs = [x] ∧ v = x) := by
  obtain ⟨nc, hnc, _, hcl⟩ := sweep_ok_mem sh data heldout rounds seed cs res Hok pr hpr
  obtain ⟨o, hsp, ho⟩ := sweepClassifier_ok sh data heldout rounds seed nc.2 pr.2 hcl
  rw [← ho] at hv
  obtain ⟨_, hmem⟩ :=
    sweepProps_ok sh nc.2 data rounds heldout nc.2.init (RandomState seed) o hsp
  obtain ⟨obs, hol, hveq, herrs⟩ := hmem v hv
  refine ⟨obs, hol, hveq, herrs, ?_⟩
  intro h1
  subst h1
  cases obs with
  | nil => simp at hol
  | cons x t =>
    cases t with
    | nil => exact ⟨x, rfl, by rw [hveq, npMean_singleton]⟩
    | cons y t2 => simp at hol

theorem claim_C2_witness :
    ∃ obs : List RVal, obs.length = 1 ∧ RVal.val 1 = npMean obs ∧
      (∀ x ∈ obs, ∃ prd ac : List ℕ, x = errRate prd ac) ∧
      (1 = 1 → ∃ x, obs = [x] ∧ RVal.val 1 = x) :=
  claim_C2_mean_of_rounds idSh wData [1/2] 1 42 [("A", constClf)] [("A", [RVal.val 1])]
    ("A", [RVal.val 1]) (RVal.val 1)
    (by simp [sweep, sweepClassifier, sweepProps, runRounds, train_test_split, idSh,
      wData, constClf, RandomState, errRate, npMeanQ, npMean, boolQ, RVal.oneSub,
      RVal.isNan, RVal.toQ, Except.map])
    (by simp) (by simp)

/-- Claim C3: the per-round recorded error rate (the embedding of
1 - np.mean(y_pred == y_test)) equals one minus the fraction of predicted
labels that match the true test labels. -/
theorem claim_C3_error_rate {β : Type} [DecidableEq β] (pred actual : List β)
    (hlen : pred.length = actual.length) (hne : actual ≠ []) :
    errRate pred actual
      = RVal.val (1 - (matchCount pred actual : ℚ) / (actual.length : ℚ)) := by
  have hz : (List.zipWith (fun a b => decide (a = b)) pred actual).length
      = actual.length := by
    simp [hlen]
  have hbne : ((List.zipWith (fun a b => decide (a = b)) pred actual).map boolQ) ≠ [] := by
    apply List.ne_nil_of_length_pos
    simp only [List.length_map, hz]
    exact List.length_pos.mpr hne
  simp only [errRate, npMeanQ, List.isEmpty_eq_true, hbne, if_false, RVal.oneSub,
    sum_map_boolQ, matchCount, List.length_map, hz]

theorem claim_C3_witness :
    errRate [0, 1] [0, 2]
      = RVal.val (1 - (matchCount [0, 1] [0, 2] : ℚ) / (([0, 2] : List ℕ).length : ℚ)) :=
  claim_C3_error_rate [0, 1] [0, 2] rfl (by simp)

/-- Claim C4: all splits of one classifier's sweep are drawn from a single
generator initialized once from the seed before the sweep begins and never
reseeded: the full split trace equals the closed-form schedule in which the
n-th split drawn is a function of the seed and the number n of prior draws,
and the trace has one split per proportion and round. -/
theorem claim_C4_one_generator {α β σ ε : Type} [DecidableEq β] (sh : Shuffle (α × β))
    (data : List (α × β)) (heldout : List ℚ) (rounds seed : ℕ) (c : Clf α β σ ε)
    (yy : List RVal)
    (h : (sweepClassifier sh data heldout rounds seed c).2 = .ok yy) :
    (sweepClassifier sh data heldout rounds seed c).1
      = splitSchedule sh data seed rounds heldout 0 ∧
    (sweepClassifier sh data heldout rounds seed c).1.length
      = heldout.length * rounds := by
  obtain ⟨o, hsp, _⟩ := sweepClassifier_ok sh data heldout rounds seed c yy h
  obtain ⟨htr, _⟩ :=
    sweepProps_ok_trace sh c data rounds heldout c.init (RandomState seed) o hsp
  constructor
  · rw [sweepClassifier_trace, htr]
    rfl
  · rw [sweepClassifier_trace, htr]
    exact splitSchedule_length sh data seed rounds heldout 0

theorem claim_C4_witness :
    (sweepClassifier idSh wData [(1 : ℚ)/2] 1 42 constClf).1
        = splitSchedule idSh wData 42 1 [(1 : ℚ)/2] 0 ∧
    (sweepClassifier idSh wData [(1 : ℚ)/2] 1 42 constClf).1.length
        = [(1 : ℚ)/2].length * 1 :=
  claim_C4_one_generator idSh wData [1/2] 1 42 constClf [RVal.val 1]
    (by simp [sweepClassifier, sweepProps, runRounds, train_test_split, idSh, wData,
      constClf, RandomState, errRate, npMeanQ, npMean, boolQ, RVal.oneSub, RVal.isNan,
      RVal.toQ, Except.map])

/-- Claim C5 counterexample: the generator IS re-initialized from the seed at
the start of each classifier's sweep, so the second classifier restarts the
split sequence instead of continuing it.  With a draw-dependent shuffle, both
classifiers of a two-classifier sweep obtain identical curves (both start at
draw 0), and the second classifier's split trace differs from the
continuation schedule (the schedule that starts at draw 1). -/
theorem claim_C5_counterexample :
    sweep flipSh data4 [1/2] 1 42 [("A", constClf), ("B", constClf)]
        = .ok [("A", [RVal.val (1/2)]), ("B", [RVal.val (1/2)])] ∧
    (sweepClassifier flipSh data4 [1/2] 1 42 constClf).1
        ≠ splitSchedule flipSh data4 42 1 [1/2] 1 := by
  constructor
  · norm_num [sweep, sweepClassifier, sweepProps, runRounds, train_test_split, flipSh,
      data4, constClf, RandomState, errRate, npMeanQ, npMean, boolQ, RVal.oneSub,
      RVal.isNan, RVal.toQ, Except.map, int_toNat_lit, -List.map_const,
      -List.map_const']
  · norm_num [sweepClassifier, sweepProps, runRounds, train_test_split, splitSchedule,
      flipSh, data4, constClf, RandomState, Except.map, int_toNat_lit,
      List.range_succ, -List.map_const, -List.map_const']

/-- Claim C5 (amended): the seed determines a deterministic, reproducible
sequence of splits, but the generator is re-seeded at the start of every
classifier's sweep: the curve recorded at each position of a completed sweep
is exactly the output of sweeping that classifier with a fresh
RandomState(seed), a restart of the sequence rather than a continuation. -/
theorem claim_C5_reseeded_per_classifier {α β σ ε : Type} [DecidableEq β]
    (sh : Shuffle (α × β)) (data : List (α × β)) (heldout : List ℚ)
    (rounds seed : ℕ) (cs : List (String × Clf α β σ ε))
    (res : List (String × List RVal))
    (h : sweep sh data heldout rounds seed cs = .ok res)
    (i : ℕ) (h1 : i < cs.length) (h2 : i < res.length) :
    (res.get ⟨i, h2⟩).1 = (cs.get ⟨i, h1⟩).1 ∧
    (sweepClassifier sh data heldout rounds seed (cs.get ⟨i, h1⟩).2).2
      = .ok (res.get ⟨i, h2⟩).2 :=
  (sweep_ok_get sh data heldout rounds seed cs res h).2 i h1 h2

theorem claim_C5_witness :
    (([("A", [RVal.val (1/2)]), ("B", [RVal.val (1/2)])].get ⟨1, by simp⟩).1
      = ([("A", constClf), ("B", constClf)].get ⟨1, by simp⟩).1) ∧
    (sweepClassifier flipSh data4 [1/2] 1 42
        (([("A", constClf), ("B", constClf)].get ⟨1, by simp⟩).2)).2
      = .ok (([("A", [RVal.val (1/2)]), ("B", [RVal.val (1/2)])].get ⟨1, by simp⟩).2) :=
  claim_C5_reseeded_per_classifier flipSh data4 [1/2] 1 42
    [("A", constClf), ("B", constClf)]
    [("A", [RVal.val (1/2)]), ("B", [RVal.val (1/2)])]
    (by
      norm_num [sweep, sweepClassifier, sweepProps, runRounds, train_test_split, flipSh,
        data4, constClf, RandomState, errRate, npMeanQ, npMean, boolQ, RVal.oneSub,
        RVal.isNan, RVal.toQ, Except.map, int_toNat_lit, -List.map_const,
        -List.map_const'])
    1 (by simp) (by simp)

/-- Claim C6: determinism/reproducibility — two executions of the sweep on
equal seeds, datasets, configurations and classifier sequences produce
identical results (identical curves for every classifier). -/
theorem claim_C6_deterministic {α β σ ε : Type} [DecidableEq β]
    (sh sh2 : Shuffle (α × β)) (data data2 : List (α × β))
    (heldout heldout2 : List ℚ) (rounds rounds2 seed seed2 : ℕ)
    (cs cs2 : List (String × Clf α β σ ε))
    (h1 : sh = sh2) (h2 : data = data2) (h3 : heldout = heldout2)
    (h4 : rounds = rounds2) (h5 : seed = seed2) (h6 : cs = cs2) :
    sweep sh data heldout rounds seed cs
      = sweep sh2 data2 heldout2 rounds2 seed2 cs2 := by
  subst h1 h2 h3 h4 h5 h6
  rfl

theorem claim_C6_witness :
    sweep idSh wData [(1 : ℚ)/2] 1 42 [("A", constClf)]
      = sweep idSh wData [(1 : ℚ)/2] 1 42 [("A", constClf)] :=
  claim_C6_deterministic idSh idSh wData wData [1/2] [1/2] 1 1 42 42
    [("A", constClf)] [("A", constClf)] rfl rfl rfl rfl rfl rfl

/-- Claim C7 counterexample: the evaluator performs no configuration
validation.  With an empty held-out-proportion list it completes normally
with an empty curve (no configuration error is reported), and with a zero
rounds count it completes normally recording NaN for each proportion. -/
theorem claim_C7_counterexample :
    sweep idSh wData ([] : List ℚ) 5 42 [("A", constClf)] = .ok [("A", [])] ∧
    sweep idSh wData [(1 : ℚ)/2] 0 42 [("A", constClf)] = .ok [("A", [RVal.nan])] := by
  constructor
  · simp [sweep, sweepClassifier, sweepProps, constClf, RandomState, Except.map]
  · simp [sweep, sweepClassifier, sweepProps, runRounds, npMean, constClf,
      RandomState, Except.map]

/-- Claim C7 (amended): an empty proportion list or a zero rounds count is not
reported as a configuration error; the sweep completes normally — with an
empty curve per classifier when the proportion list is empty, and with a NaN
value (the undefined mean over zero observations) per proportion when rounds
is zero — and in either case no split is drawn for any classifier. -/
theorem claim_C7_no_config_validation {α β σ ε : Type} [DecidableEq β]
    (sh : Shuffle (α × β)) (data : List (α × β)) (heldout : List ℚ)
    (rounds seed : ℕ) (cs : List (String × Clf α β σ ε)) (c : Clf α β σ ε)
    (h : heldout = [] ∨ rounds = 0) :
    sweep sh data heldout rounds seed cs
        = .ok (cs.map fun nc => (nc.1, heldout.map fun _ => RVal.nan)) ∧
    (sweepClassifier sh data heldout rounds seed c).1 = [] := by
  rcases h with rfl | rfl
  · constructor
    · simpa using sweep_heldout_nil sh data rounds seed cs
    · rfl
  · constructor
    · exact sweep_rounds_zero sh data heldout seed cs
    · rw [sweepClassifier_trace, sweepProps_rounds_zero]

theorem claim_C7_witness :
    sweep idSh wData ([] : List ℚ) 5 42 [("A", constClf)]
        = .ok ([("A", constClf)].map fun nc => (nc.1, ([] : List ℚ).map fun _ => RVal.nan)) ∧
    (sweepClassifier idSh wData ([] : List ℚ) 5 42 constClf).1 = [] :=
  claim_C7_no_config_validation idSh wData [] 5 42 [("A", constClf)] constClf
    (Or.inl rfl)

/-- Claim C8 counterexample: a degenerate split is not rejected.  With
proportion 0.999 on the ten-sample dataset the training set is empty, yet the
sweep completes normally with an ordinary error rate (1/2 for the constant
classifier) — no configuration or degenerate-split error is raised; and with
a proportion yielding an empty test set the undefined error rate NaN is
recorded silently. -/
theorem claim_C8_counterexample :
    (train_test_split idSh data10 (999/1000) (RandomState 42)).1.1 = [] ∧
    sweep idSh data10 [999/1000] 1 42 [("A", constClf)]
        = .ok [("A", [RVal.val (1/2)])] ∧
    sweep idSh data10 [0] 1 42 [("A", constClf)] = .ok [("A", [RVal.nan])] := by
  have hc : (⌈(999 : ℚ) / 100⌉ : ℤ) = 10 := by
    rw [Int.ceil_eq_iff]
    norm_num
  refine ⟨?_, ?_, ?_⟩
  · norm_num [train_test_split, idSh, data10, RandomState, hc, int_toNat_lit]
  · norm_num [sweep, sweepClassifier, sweepProps, runRounds, train_test_split, idSh,
      data10, constClf, RandomState, errRate, npMeanQ, npMean, boolQ, RVal.oneSub,
      RVal.isNan, RVal.toQ, Except.map, hc, int_toNat_lit, -List.map_const,
      -List.map_const']
  · norm_num [sweep, sweepClassifier, sweepProps, runRounds, train_test_split, idSh,
      data10, constClf, RandomState, errRate, npMeanQ, npMean, boolQ, RVal.oneSub,
      RVal.isNan, RVal.toQ, Except.map, hc, int_toNat_lit, -List.map_const,
      -List.map_const']

/-- Claim C8 (amended): the evaluator itself never raises on degenerate
splits (or any other input): whenever every classifier's fit and predict
succeed, the whole sweep completes normally — degenerate splits with zero
training or zero test samples are processed silently rather than rejected. -/
theorem claim_C8_no_degenerate_validation {α β σ ε : Type} [DecidableEq β]
    (sh : Shuffle (α × β)) (data : List (α × β)) (heldout : List ℚ)
    (rounds seed : ℕ) (cs : List (String × Clf α β σ ε))
    (H : ∀ nc ∈ cs, (∀ st t, ∃ st2, (nc.2).fit st t = .ok st2) ∧
      (∀ st xs, ∃ ys, (nc.2).predict st xs = .ok ys)) :
    ∃ res, sweep sh data heldout rounds seed cs = .ok res :=
  sweep_total sh data heldout rounds seed cs H

theorem claim_C8_witness :
    ∃ res, sweep idSh data10 [(999 : ℚ)/1000] 1 42 [("A", constClf)] = .ok res :=
  claim_C8_no_degenerate_validation idSh data10 [999/1000] 1 42 [("A", constClf)]
    (by
      intro nc hnc
      simp only [List.mem_singleton] at hnc
      subst hnc
      exact ⟨fun st t => ⟨(), rfl⟩, fun st xs => ⟨xs.map fun _ => 0, rfl⟩⟩)

/-- Claim C9 counterexample: the propagated failure does NOT carry context
identifying the classifier name, the proportion, or the round index — it is
exactly the value the classifier raised.  Two sweeps that fail under entirely
different contexts (classifier "A", proportions [1/2], failing on its first
training call, versus classifier "B", proportions [1/4, 3/4] with two rounds,
failing on its third training call) propagate the very same error value, from
which no context can be recovered. -/
theorem claim_C9_counterexample :
    sweep idSh wData [(1 : ℚ)/2] 1 42 [("A", failingClf 0 "boom")]
        = .error "boom" ∧
    sweep idSh data4 [(1 : ℚ)/4, 3/4] 2 7 [("B", failingClf 2 "boom")]
        = .error "boom" := by
  constructor
  · norm_num [sweep, sweepClassifier, sweepProps, runRounds, train_test_split, idSh,
      wData, failingClf, RandomState, Except.map, int_toNat_lit]
  · norm_num [sweep, sweepClassifier, sweepProps, runRounds, train_test_split, idSh,
      data4, failingClf, RandomState, errRate, npMeanQ, npMean, boolQ, RVal.oneSub,
      RVal.isNan, RVal.toQ, Except.map, int_toNat_lit]

/-- Claim C9 (amended): when fit raises (here: at the classifier's (k+1)-th
training call, anywhere within the sweep), the evaluator performs no recovery
or retry — evaluation stops at the failing round, having drawn exactly k+1
splits out of the configured heldout.length * rounds — and the raised error
value propagates exactly as raised, with no classifier/proportion/round
context attached. -/
theorem claim_C9_abort_without_context {α β ε : Type} [DecidableEq β]
    (sh : Shuffle (α × β)) (data : List (α × β)) (heldout : List ℚ)
    (rounds seed k : ℕ) (e : ε) (hk : k < heldout.length * rounds) :
    (sweepClassifier sh data heldout rounds seed
        (failingClf (α := α) (β := β) k e)).2 = .error e ∧
    (sweepClassifier sh data heldout rounds seed
        (failingClf (α := α) (β := β) k e)).1.length = k + 1 := by
  have hinit : (failingClf (α := α) (β := β) (ε := ε) k e).init = 0 := rfl
  obtain ⟨herr, hlen⟩ := failingClf_sweepProps_error sh data rounds k e heldout 0
    (RandomState seed) (by omega) (by omega)
  constructor
  · simp only [sweepClassifier, hinit, herr, Except.map]
  · rw [sweepClassifier_trace, hinit, hlen]
    omega

theorem claim_C9_witness :
    ((sweepClassifier idSh wData [(1 : ℚ)/2, 1/3] 1 42
        (failingClf (α := ℕ) (β := ℕ) 1 "boom")).2 = .error "boom") ∧
    (sweepClassifier idSh wData [(1 : ℚ)/2, 1/3] 1 42
        (failingClf (α := ℕ) (β := ℕ) 1 "boom")).1.length = 1 + 1 :=
  claim_C9_abort_without_context idSh wData [1/2, 1/3] 1 42 1 "boom" (by norm_num)

/-- Claim C10: because the generator is freshly seeded at the start of each
classifier's sweep and each classifier carries its own state, the curve
produced for a classifier in a completed sweep is independent of which other
classifiers appear and where: sweeping the classifier at position i alone
yields exactly its entry of the full result. -/
theorem claim_C10_independence {α β σ ε : Type} [DecidableEq β]
    (sh : Shuffle (α × β)) (data : List (α × β)) (heldout : List ℚ)
    (rounds seed : ℕ) (cs : List (String × Clf α β σ ε))
    (res : List (String × List RVal))
    (h : sweep sh data heldout rounds seed cs = .ok res)
    (i : ℕ) (h1 : i < cs.length) (h2 : i < res.length) :
    sweep sh data heldout rounds seed [cs.get ⟨i, h1⟩] = .ok [res.get ⟨i, h2⟩] := by
  obtain ⟨hname, hcl⟩ := (sweep_ok_get sh data heldout rounds seed cs res h).2 i h1 h2
  simp only [sweep, hcl, Except.map]
  rw [← hname]

theorem claim_C10_witness :
    sweep flipSh data4 [(1 : ℚ)/2] 1 42
        [([("A", constClf), ("B", constClf)].get ⟨1, by simp⟩)]
      = .ok [([("A", [RVal.val (1/2)]), ("B", [RVal.val (1/2)])].get ⟨1, by simp⟩)] :=
  claim_C10_independence flipSh data4 [1/2] 1 42
    [("A", constClf), ("B", constClf)]
    [("A", [RVal.val (1/2)]), ("B", [RVal.val (1/2)])]
    (by
      norm_num [sweep, sweepClassifier, sweepProps, runRounds, train_test_split, flipSh,
        data4, constClf, RandomState, errRate, npMeanQ, npMean, boolQ, RVal.oneSub,
        RVal.isNan, RVal.toQ, Except.map, int_toNat_lit, -List.map_const,
        -List.map_const'])
    1 (by simp) (by simp)

end SolverSweep
